import Mathlib

/-!
Verification of the snarkVM experimental transition builder (`main.rs`) and the
deploy-request serialization (`vm/package/deploy.rs`).

The embedding is parameterized over a base-field type `F` (addresses, serial
numbers, hash digests, record view keys) and a scalar-field type `S`
(commitment randomizers).  Curve points in the Pedersen commitment subgroup
generated by the two independent generators `(G, H)` are idealized as exponent
coordinates `S × S` (the standard discrete-log idealization): the point
`v • G + r • H` is represented by the pair `(v, r)`, and point addition is
componentwise.  Machine integers are modelled as `Nat`/`Int` with explicit
wrap-around (`% 2^64`) and with arithmetic overflow surfacing as a panic
(`Option.none`), matching checked Rust semantics.
-/

namespace SnarkVM

/-- The most negative `i64` value. -/
def i64Min : Int := -(2 ^ 63)

/-- The Rust cast `n as i64` applied to a `u64` value: wraps modulo `2^64`
into the signed range. -/
def u64AsI64 (n : Nat) : Int :=
  if n % 2 ^ 64 < 2 ^ 63 then ((n % 2 ^ 64 : Nat) : Int)
  else ((n % 2 ^ 64 : Nat) : Int) - 2 ^ 64

/-- Checked `i64` negation: `-n` panics (returns `none`) exactly when
`n = i64::MIN`, since `2^63` is not representable. -/
def i64NegChecked (n : Int) : Option Int :=
  if n = i64Min then none else some (-n)

/-- Checked `i64::abs`: panics (returns `none`) exactly when `n = i64::MIN`,
since `|i64::MIN| = 2^63` is not representable; otherwise returns the
absolute value as the natural number whose little-endian bits `to_bits_le`
produces. -/
def i64AbsChecked (n : Int) : Option Nat :=
  if n = i64Min then none else some n.natAbs

/-- Modelled from the spec: `commit_ped64` / `Commit64` is a Pedersen
commitment `v • G + r • H` over a prime-order group with independent
generators `G` (value) and `H` (blinding), additively homomorphic.  The
group element is idealized by its exponent coordinates with respect to
`(G, H)`.  The Rust primitive lives in the external `snarkvm_algorithms`
crate and is consumed as an opaque collaborator. -/
def commit_ped64 {S : Type} [CommRing S] (v : Nat) (r : S) : S × S :=
  ((v : S), r)

/-- Program state (`console::program::State`): owner, balance and opaque
program fields.  Balance is an unsigned 64-bit value. -/
structure State (F : Type) where
  program : F
  process : F
  owner : F
  balance : Nat
  data : F
deriving DecidableEq

/-- Modelled from the spec: a `Record` (external `console::program` type) is
an encrypted bundle holding the program state, recoverable by the holder of
the record view key, together with its embedded balance commitment
`bcm = Commit64(balance, r_bcm)` where `r_bcm` is derived from the record
view key (spec section 4.1). -/
structure Record (F S : Type) where
  state : State F
  rvk : F
  bcm : S × S
deriving DecidableEq

/-- Modelled from the spec: `record.to_record_view_key(view_key)` recovers
the record view key for the record owner. -/
def Record.to_record_view_key {F S : Type} (r : Record F S) (_viewKey : F) : F :=
  r.rvk

/-- Modelled from the spec: symmetric record decryption succeeds with the
matching record view key and recovers the encrypted state (round-trip
contract of spec section 8). -/
def Record.decrypt_symmetric {F S : Type} [DecidableEq F] (r : Record F S) (key : F) :
    Except String (State F) :=
  if key = r.rvk then Except.ok r.state else Except.error "decryption failed"

/-- A transition input (`Input` in `main.rs`): the serial number of the
consumed record and its randomized balance commitment. -/
structure Input (F S : Type) where
  serial_number : F
  bcm : S × S
deriving DecidableEq

/-- A transition output (`Output` in `main.rs`): the freshly produced record. -/
structure Output (F S : Type) where
  record : Record F S
deriving DecidableEq

/-- `Output::bcm`: the balance commitment embedded in the wrapped record. -/
def Output.bcm {F S : Type} (o : Output F S) : S × S :=
  o.record.bcm

/-- SNARK proofs are opaque to this development. -/
abbrev SnarkProof : Type := Unit

/-- `Transition` from `main.rs`: inputs, outputs, proofs, address commitment
and the signed 64-bit fee. -/
structure Transition (F S : Type) where
  inputs : List (Input F S)
  outputs : List (Output F S)
  input_proofs : List SnarkProof
  output_proofs : List SnarkProof
  acm : F
  fee : Int
deriving DecidableEq

/-- `Transition::verify` from `main.rs`: the body is stubbed out and returns
`true` unconditionally. -/
def Transition.verify {F S : Type} (_t : Transition F S) : Bool :=
  true

/-- `Transition::fcm` from `main.rs`: starts from the group identity, adds
the input balance commitments, subtracts the output balance commitments,
then subtracts (fee positive) or adds (fee not positive) a commitment to
`fee.abs()` with blinding zero.  `none` models the `abs` overflow panic at
`fee = i64::MIN`. -/
def Transition.fcm {F S : Type} [CommRing S] (t : Transition F S) : Option (S × S) :=
  let f1 : S × S := t.inputs.foldl (fun acc i => acc + i.bcm) 0
  let f2 : S × S := t.outputs.foldl (fun acc o => acc - o.bcm) f1
  if 0 < t.fee then
    (i64AbsChecked t.fee).map (fun a => f2 - commit_ped64 a 0)
  else
    (i64AbsChecked t.fee).map (fun a => f2 + commit_ped64 a 0)

/-- `Transaction` from `main.rs`: a network identifier and the ordered list
of transitions. -/
structure Transaction (F S : Type) where
  network : Nat
  transitions : List (Transition F S)
deriving DecidableEq

/-- The external `Network` primitives consumed by `main.rs` (hashes, the
BHP commitment, the balance-commitment domain tag, bit serialization and the
field zero), kept abstract exactly as the Rust code consumes them through
the `Network` trait. -/
structure NetworkOps (F S : Type) where
  hash_to_scalar_psd2 : List F → Except String S
  commit_bhp256 : List Bool → S → Except String F
  hash_bhp1024 : List Bool → Except String F
  bcm_domain : F
  to_bits_le : F → List Bool
  fieldZero : F

/-- The `acm` helper from `main.rs`: commits to the caller address bits
under the freshly sampled blinding scalar `r_acm` (the RNG draw is
externalized as the argument `r_acm`). -/
def acmFn {F S : Type} (N : NetworkOps F S) (caller : F) (r_acm : S) :
    Except String (F × S) :=
  match N.commit_bhp256 (N.to_bits_le caller) r_acm with
  | Except.error m => Except.error m
  | Except.ok a => Except.ok (a, r_acm)

/-- The `bcm` helper from `main.rs`: derives `r_bcm` from the record view
key, and rerandomizes the record commitment by adding `Commit64(0, k_bcm)`
for the freshly sampled `k_bcm` (the RNG draw is externalized as the
argument `k_bcm`). -/
def bcmFn {F S : Type} [CommRing S] (N : NetworkOps F S) (bcm0 : S × S)
    (record_view_key : F) (k_bcm : S) : Except String ((S × S) × S × S) :=
  match N.hash_to_scalar_psd2 [N.bcm_domain, record_view_key] with
  | Except.error m => Except.error m
  | Except.ok r_bcm => Except.ok (bcm0 + commit_ped64 0 k_bcm, r_bcm, k_bcm)

/-- The `fcm` helper from `main.rs`: folds the input-side randomizers with
addition and the output-side randomizers with subtraction starting from
zero, and commits to zero under the resulting `r_fcm`. -/
def fcmFn {S : Type} [CommRing S] (r_in r_out : List S) : (S × S) × S :=
  let r1 : S := r_in.foldl (fun acc r => acc + r) 0
  let r_fcm : S := r_out.foldl (fun acc r => acc - r) r1
  (commit_ped64 0 r_fcm, r_fcm)

/-- The fee-commitment call site of the burn flow (`main.rs` line 351):
`fcm::<A>(&[r_bcm + k_bcm], &[])`. -/
def burnFcmCall {S : Type} [CommRing S] (r_bcm k_bcm : S) : (S × S) × S :=
  fcmFn [r_bcm + k_bcm] []

section FoldLemmas

variable {M : Type} [AddCommGroup M]

theorem foldl_add_map {α : Type} (f : α → M) (l : List α) (init : M) :
    l.foldl (fun acc x => acc + f x) init = init + (l.map f).sum := by
  induction l generalizing init with
  | nil => simp
  | cons x xs ih => simp [ih, add_assoc]

theorem foldl_sub_map {α : Type} (f : α → M) (l : List α) (init : M) :
    l.foldl (fun acc x => acc - f x) init = init - (l.map f).sum := by
  induction l generalizing init with
  | nil => simp
  | cons x xs ih => simp [ih, sub_sub]

theorem foldl_add_id (l : List M) (init : M) :
    l.foldl (fun acc x => acc + x) init = init + l.sum := by
  induction l generalizing init with
  | nil => simp
  | cons x xs ih => simp [ih, add_assoc]

theorem foldl_sub_id (l : List M) (init : M) :
    l.foldl (fun acc x => acc - x) init = init - l.sum := by
  induction l generalizing init with
  | nil => simp
  | cons x xs ih => simp [ih, sub_sub]

end FoldLemmas

section FcmBasic

variable {F S : Type} [CommRing S]

theorem fcmFn_eq (r_in r_out : List S) :
    fcmFn r_in r_out = (commit_ped64 0 (r_in.sum - r_out.sum), r_in.sum - r_out.sum) := by
  unfold fcmFn
  simp only [foldl_add_id, foldl_sub_id]
  simp

end FcmBasic

/-- Errors arising inside the `catch_unwind` closure: either a panic
(assertion failure, integer overflow, circuit invariant break) or a typed
`anyhow::Error` propagated with `?`. -/
inductive ClosureErr where
  | panicked : ClosureErr
  | typed : String → ClosureErr
deriving DecidableEq

/-- The observable failure modes of a top-level build:
`threadFailed` is the conversion of a caught closure panic
(`bail!("Thread failed")`), `typed` is an `anyhow` error (either propagated
with `?` before the closure or re-raised from the closure with
`bail!("{:?}", error)`), and `uncaught` marks a panic outside the
`catch_unwind` boundary (an out-of-bounds index), which would unwind out of
the builder entirely. -/
inductive BuildError where
  | threadFailed : BuildError
  | typed : String → BuildError
  | uncaught : BuildError
deriving DecidableEq

/-- The external collaborators and RNG draws consumed by `mint`: the fallible
address derivation, the output randomizer proof, encryption success, the
fresh record view key assigned to the minted record, the `acm` blinding
draw, the fallible `OutputCircuit::from` construction, whether the circuit
execution panics, and the SNARK backend result. -/
structure MintEnv (F S : Type) where
  callerAddress : Except String F
  randomizer : Except String Unit
  encryptOk : Bool
  freshRvk : F
  r_acm : S
  circuitFrom : Except String Unit
  circuitExecPanics : Bool
  snarkExecute : Except String SnarkProof

/-- Modelled from the spec: `state.encrypt(&randomizer)` (external
`console::program` code) produces a record whose view key is the fresh draw
for this build and whose embedded balance commitment is
`Commit64(balance, r_bcm)` with `r_bcm = HashToScalar(domain, record_view_key)`
(spec sections 3 and 4.1). -/
def encrypt {F S : Type} [CommRing S] (N : NetworkOps F S) (e : MintEnv F S)
    (st : State F) : Except String (Record F S) :=
  if e.encryptOk then
    match N.hash_to_scalar_psd2 [N.bcm_domain, e.freshRvk] with
    | Except.error m => Except.error m
    | Except.ok r_bcm =>
        Except.ok { state := st, rvk := e.freshRvk, bcm := commit_ped64 st.balance r_bcm }
  else Except.error "encryption failed"

/-- `mint` from `main.rs` (transition 0 -> 1): derive the caller address and
randomizer, build and encrypt the coinbase state, compute `acm`, derive
`r_bcm` and the pre-circuit `fcm(∅, [r_bcm])`, then inside the
`catch_unwind` boundary hash the empty serial-number list, build and execute
the output circuit, prove, assemble the transition with `fee = -(amount as
i64)`, and assert that the recomputed `Transition::fcm` equals the
pre-circuit value.  Closure panics become the `threadFailed` error. -/
def mint {F S : Type} [CommRing S] [DecidableEq F] [DecidableEq S]
    (N : NetworkOps F S) (e : MintEnv F S) (caller_view_key : F) (amount : Nat) :
    Except BuildError (Transaction F S) :=
  match e.callerAddress with
  | Except.error m => Except.error (BuildError.typed m)
  | Except.ok caller_address =>
  match e.randomizer with
  | Except.error m => Except.error (BuildError.typed m)
  | Except.ok _ =>
  let st : State F :=
    { program := N.fieldZero, process := N.fieldZero, owner := caller_address,
      balance := amount % 2 ^ 64, data := N.fieldZero }
  match encrypt N e st with
  | Except.error m => Except.error (BuildError.typed m)
  | Except.ok record =>
  match acmFn N caller_address e.r_acm with
  | Except.error m => Except.error (BuildError.typed m)
  | Except.ok (acmV, _r_acm) =>
  let record_view_key := record.to_record_view_key caller_view_key
  match N.hash_to_scalar_psd2 [N.bcm_domain, record_view_key] with
  | Except.error m => Except.error (BuildError.typed m)
  | Except.ok r_bcm =>
  let fcmPair := fcmFn [] [r_bcm]
  let process : Except ClosureErr (Transaction F S) :=
    match N.hash_bhp1024 [] with
    | Except.error m => Except.error (ClosureErr.typed m)
    | Except.ok _serial_numbers_digest =>
    match e.circuitFrom with
    | Except.error m => Except.error (ClosureErr.typed m)
    | Except.ok _ =>
    if e.circuitExecPanics then Except.error ClosureErr.panicked
    else
    match e.snarkExecute with
    | Except.error m => Except.error (ClosureErr.typed m)
    | Except.ok proof =>
    match i64NegChecked (u64AsI64 amount) with
    | none => Except.error ClosureErr.panicked
    | some fee =>
    let transition : Transition F S :=
      { inputs := [], outputs := [{ record := record }], input_proofs := [],
        output_proofs := [proof], acm := acmV, fee := fee }
    match transition.fcm with
    | none => Except.error ClosureErr.panicked
    | some tfcm =>
    if fcmPair.1 = tfcm then
      Except.ok { network := 0, transitions := [transition] }
    else Except.error ClosureErr.panicked
  match process with
  | Except.ok tx => Except.ok tx
  | Except.error (ClosureErr.typed m) => Except.error (BuildError.typed m)
  | Except.error ClosureErr.panicked => Except.error BuildError.threadFailed

/-- The external collaborators and RNG draws consumed by `burn`: key
generation and derivation, the environment of the internal bootstrap mint,
the Merkle-tree construction, membership path and root, the serial-number
derivation and its signature, the `acm` and `k_bcm` blinding draws, the
fallible `InputCircuit::from` construction, whether the circuit execution
panics, and the SNARK backend result. -/
structure BurnEnv (F S : Type) where
  privateKey : Except String Unit
  viewKey : Except String F
  callerAddress : Except String F
  mintEnv : MintEnv F S
  merkleTree : Except String Unit
  merklePath : Except String Unit
  merkleRoot : F
  serialNumber : Except String F
  signature : Except String Unit
  r_acm : S
  k_bcm : S
  circuitFrom : Except String Unit
  circuitExecPanics : Bool
  snarkExecute : Except String SnarkProof

/-- `burn` from `main.rs` (transition 1 -> 0): generate a caller account,
bootstrap by minting a 100-unit record, index into the mint transaction to
retrieve the record (an out-of-bounds index here would panic outside any
`catch_unwind`, modelled as `uncaught`), build the Merkle tree and path,
derive the serial number and signature, compute `acm`, decrypt the record
to set `fee = balance as i64`, rerandomize the balance commitment with
`k_bcm`, compute the pre-circuit `fcm([r_bcm + k_bcm], ∅)`, then inside the
`catch_unwind` boundary build and execute the input circuit, prove,
assemble the transition, and assert the recomputed `Transition::fcm`
equality.  Closure panics become the `threadFailed` error. -/
def burn {F S : Type} [CommRing S] [DecidableEq F] [DecidableEq S]
    (N : NetworkOps F S) (e : BurnEnv F S) :
    Except BuildError (Transaction F S) :=
  match e.privateKey with
  | Except.error m => Except.error (BuildError.typed m)
  | Except.ok _ =>
  match e.viewKey with
  | Except.error m => Except.error (BuildError.typed m)
  | Except.ok caller_view_key =>
  match e.callerAddress with
  | Except.error m => Except.error (BuildError.typed m)
  | Except.ok caller_address =>
  match mint N e.mintEnv caller_view_key 100 with
  | Except.error err => Except.error err
  | Except.ok transaction =>
  match transaction.transitions with
  | [] => Except.error BuildError.uncaught
  | t0 :: _ =>
  match t0.outputs with
  | [] => Except.error BuildError.uncaught
  | o0 :: _ =>
  let record := o0.record
  match e.merkleTree with
  | Except.error m => Except.error (BuildError.typed m)
  | Except.ok _ =>
  match e.merklePath with
  | Except.error m => Except.error (BuildError.typed m)
  | Except.ok _ =>
  let _root := e.merkleRoot
  let record_view_key := record.to_record_view_key caller_view_key
  match e.serialNumber with
  | Except.error m => Except.error (BuildError.typed m)
  | Except.ok serial_number =>
  match e.signature with
  | Except.error m => Except.error (BuildError.typed m)
  | Except.ok _ =>
  match acmFn N caller_address e.r_acm with
  | Except.error m => Except.error (BuildError.typed m)
  | Except.ok (acmV, _r_acm) =>
  match record.decrypt_symmetric record_view_key with
  | Except.error m => Except.error (BuildError.typed m)
  | Except.ok st =>
  let fee := u64AsI64 st.balance
  match bcmFn N record.bcm record_view_key e.k_bcm with
  | Except.error m => Except.error (BuildError.typed m)
  | Except.ok (bcmV, r_bcm, k_bcm) =>
  let fcmPair := burnFcmCall r_bcm k_bcm
  let process : Except ClosureErr (Transaction F S) :=
    match e.circuitFrom with
    | Except.error m => Except.error (ClosureErr.typed m)
    | Except.ok _ =>
    if e.circuitExecPanics then Except.error ClosureErr.panicked
    else
    match e.snarkExecute with
    | Except.error m => Except.error (ClosureErr.typed m)
    | Except.ok proof =>
    let transition : Transition F S :=
      { inputs := [{ serial_number := serial_number, bcm := bcmV }], outputs := [],
        input_proofs := [proof], output_proofs := [], acm := acmV, fee := fee }
    match transition.fcm with
    | none => Except.error ClosureErr.panicked
    | some tfcm =>
    if fcmPair.1 = tfcm then
      Except.ok { network := 0, transitions := [transition] }
    else Except.error ClosureErr.panicked
  match process with
  | Except.ok tx => Except.ok tx
  | Except.error (ClosureErr.typed m) => Except.error (BuildError.typed m)
  | Except.error ClosureErr.panicked => Except.error BuildError.threadFailed

section Elim

variable {F S : Type} [CommRing S] [DecidableEq F] [DecidableEq S]

/-- The coinbase record assembled by a mint build, as a function of the
caller address, the amount and the balance-commitment randomizer. -/
def mintRecord (N : NetworkOps F S) (e : MintEnv F S) (addr : F) (a : Nat) (r_bcm : S) :
    Record F S :=
  { state := { program := N.fieldZero, process := N.fieldZero, owner := addr,
               balance := a % 2 ^ 64, data := N.fieldZero },
    rvk := e.freshRvk, bcm := commit_ped64 (a % 2 ^ 64) r_bcm }

/-- The transition assembled by a mint build. -/
def mintTransition (N : NetworkOps F S) (e : MintEnv F S) (addr acmV : F) (a : Nat)
    (r_bcm : S) (proof : SnarkProof) (fee : Int) : Transition F S :=
  { inputs := [], outputs := [{ record := mintRecord N e addr a r_bcm }],
    input_proofs := [], output_proofs := [proof], acm := acmV, fee := fee }

theorem mint_ok_elim (N : NetworkOps F S) (e : MintEnv F S) (vk : F) (a : Nat)
    (tx : Transaction F S) (h : mint N e vk a = Except.ok tx) :
    ∃ addr r_bcm acmV proof fee,
      e.callerAddress = Except.ok addr ∧
      N.hash_to_scalar_psd2 [N.bcm_domain, e.freshRvk] = Except.ok r_bcm ∧
      i64NegChecked (u64AsI64 a) = some fee ∧
      tx = { network := 0,
             transitions := [mintTransition N e addr acmV a r_bcm proof fee] } ∧
      Transition.fcm (mintTransition N e addr acmV a r_bcm proof fee) =
        some ((fcmFn (S := S) [] [r_bcm]).1) := by
  cases hca : e.callerAddress with
  | error m =>
      simp only [mint, hca] at h
      exact Except.noConfusion h
  | ok addr =>
  cases hrand : e.randomizer with
  | error m =>
      simp only [mint, hca, hrand] at h
      exact Except.noConfusion h
  | ok u =>
  cases heo : e.encryptOk with
  | false =>
      simp only [mint, encrypt, hca, hrand, heo, Bool.false_eq_true, if_false] at h
      exact Except.noConfusion h
  | true =>
  cases hh : N.hash_to_scalar_psd2 [N.bcm_domain, e.freshRvk] with
  | error m =>
      simp only [mint, encrypt, hca, hrand, heo, if_true, hh] at h
      exact Except.noConfusion h
  | ok r_bcm =>
  cases hcb : N.commit_bhp256 (N.to_bits_le addr) e.r_acm with
  | error m =>
      simp only [mint, encrypt, acmFn, hca, hrand, heo, if_true, hh, hcb] at h
      exact Except.noConfusion h
  | ok acmV =>
  cases hd : N.hash_bhp1024 ([] : List Bool) with
  | error m =>
      simp only [mint, encrypt, acmFn, Record.to_record_view_key, hca, hrand, heo,
        if_true, hh, hcb, hd] at h
      exact Except.noConfusion h
  | ok dg =>
  cases hcf : e.circuitFrom with
  | error m =>
      simp only [mint, encrypt, acmFn, Record.to_record_view_key, hca, hrand, heo,
        if_true, hh, hcb, hd, hcf] at h
      exact Except.noConfusion h
  | ok u2 =>
  cases hcp : e.circuitExecPanics with
  | true =>
      simp only [mint, encrypt, acmFn, Record.to_record_view_key, hca, hrand, heo,
        if_true, hh, hcb, hd, hcf, hcp] at h
      exact Except.noConfusion h
  | false =>
  cases hse : e.snarkExecute with
  | error m =>
      simp only [mint, encrypt, acmFn, Record.to_record_view_key, hca, hrand, heo,
        if_true, hh, hcb, hd, hcf, hcp, Bool.false_eq_true, if_false, hse] at h
      exact Except.noConfusion h
  | ok proof =>
  cases hneg : i64NegChecked (u64AsI64 a) with
  | none =>
      simp only [mint, encrypt, acmFn, Record.to_record_view_key, hca, hrand, heo,
        if_true, hh, hcb, hd, hcf, hcp, Bool.false_eq_true, if_false, hse, hneg] at h
      exact Except.noConfusion h
  | some fee =>
  simp only [mint, encrypt, acmFn, Record.to_record_view_key, hca, hrand, heo,
    if_true, hh, hcb, hd, hcf, hcp, Bool.false_eq_true, if_false, hse, hneg] at h
  refine ⟨addr, r_bcm, acmV, proof, fee, rfl, rfl, rfl, ?_⟩
  simp only [mintTransition, mintRecord]
  split at h
  · rename_i val heq
    injection h with h4
    subst h4
    split at heq
    · exact Except.noConfusion heq
    · rename_i tfcm hfcm
      split at heq
      · rename_i hcond
        injection heq with h3
        refine ⟨h3.symm, ?_⟩
        rw [hfcm, hcond]
      · exact Except.noConfusion heq
  · exact Except.noConfusion h
  · exact Except.noConfusion h

omit [DecidableEq F] [DecidableEq S] in
theorem mint_amount_small (N : NetworkOps F S) (e : MintEnv F S) (addr acmV : F)
    (a : Nat) (r_bcm : S) (proof : SnarkProof) (fee : Int)
    (hS : ((2 ^ 64 : Nat) : S) ≠ 0)
    (hneg : i64NegChecked (u64AsI64 a) = some fee)
    (hfcm : Transition.fcm (mintTransition N e addr acmV a r_bcm proof fee) =
      some ((fcmFn (S := S) [] [r_bcm]).1)) :
    a % 2 ^ 64 < 2 ^ 63 ∧ fee = -((a % 2 ^ 64 : Nat) : Int) := by
  have hb : a % 2 ^ 64 < 2 ^ 64 := Nat.mod_lt _ (by norm_num)
  unfold i64NegChecked u64AsI64 at hneg
  by_cases hlt : a % 2 ^ 64 < 2 ^ 63
  · refine ⟨hlt, ?_⟩
    rw [if_pos hlt] at hneg
    split at hneg
    · exact Option.noConfusion hneg
    · injection hneg with h2
      exact h2.symm
  · exfalso
    rw [if_neg hlt] at hneg
    split at hneg
    · exact Option.noConfusion hneg
    · rename_i hmin
      injection hneg with h2
      rw [i64Min] at hmin
      have hbgt : 2 ^ 63 < a % 2 ^ 64 := by omega
      have hfee : fee = 2 ^ 64 - ((a % 2 ^ 64 : Nat) : Int) := by omega
      have hfeepos : 0 < fee := by omega
      have hfa : fee.natAbs = 2 ^ 64 - a % 2 ^ 64 := by omega
      rw [fcmFn_eq] at hfcm
      simp only [Transition.fcm, mintTransition, mintRecord, Output.bcm, List.foldl_nil,
        List.foldl_cons, if_pos hfeepos, i64AbsChecked, commit_ped64] at hfcm
      rw [if_neg (by simp only [i64Min]; omega : fee ≠ i64Min)] at hfcm
      simp only [Option.map_some', Option.some.injEq, Prod.mk.injEq, Prod.ext_iff,
        Prod.fst_sub, Prod.snd_sub, Prod.fst_zero, Prod.snd_zero] at hfcm
      have hfirst : (0 : S) - ((a % 2 ^ 64 : Nat) : S) - ((fee.natAbs : Nat) : S) =
          (0 : S) := by
        have h3 := hfcm.1
        simpa using h3
      apply hS
      have hsum : ((a % 2 ^ 64 + fee.natAbs : Nat) : S) = 0 := by
        push_cast
        linear_combination (-1 : S) * hfirst
      have : a % 2 ^ 64 + fee.natAbs = 2 ^ 64 := by omega
      rw [this] at hsum
      exact hsum

/-- The transition assembled by a burn build, as a function of the serial
number, the address commitment, the consumed record's balance-commitment
randomizer and the proof. -/
def burnTransition (e : BurnEnv F S) (sn acmV : F) (r_bcm : S) (proof : SnarkProof) :
    Transition F S :=
  { inputs := [{ serial_number := sn,
                 bcm := commit_ped64 (100 % 2 ^ 64) r_bcm + commit_ped64 0 e.k_bcm }],
    outputs := [], input_proofs := [proof], output_proofs := [],
    acm := acmV, fee := u64AsI64 (100 % 2 ^ 64) }

theorem burn_ok_elim (N : NetworkOps F S) (e : BurnEnv F S) (tx : Transaction F S)
    (h : burn N e = Except.ok tx) :
    ∃ vk sn r_bcm acmV proof addr acmV0 proof0 fee0,
      e.viewKey = Except.ok vk ∧
      e.serialNumber = Except.ok sn ∧
      N.hash_to_scalar_psd2 [N.bcm_domain, e.mintEnv.freshRvk] = Except.ok r_bcm ∧
      mint N e.mintEnv vk 100 = Except.ok
        { network := 0,
          transitions := [mintTransition N e.mintEnv addr acmV0 100 r_bcm proof0 fee0] } ∧
      tx = { network := 0, transitions := [burnTransition e sn acmV r_bcm proof] } ∧
      Transition.fcm (burnTransition e sn acmV r_bcm proof) =
        some ((burnFcmCall r_bcm e.k_bcm).1) := by
  cases hpk : e.privateKey with
  | error m =>
      simp only [burn, hpk] at h
      exact Except.noConfusion h
  | ok u0 =>
  cases hvk : e.viewKey with
  | error m =>
      simp only [burn, hpk, hvk] at h
      exact Except.noConfusion h
  | ok vk =>
  cases hcaB : e.callerAddress with
  | error m =>
      simp only [burn, hpk, hvk, hcaB] at h
      exact Except.noConfusion h
  | ok ca =>
  cases hm : mint N e.mintEnv vk 100 with
  | error err =>
      simp only [burn, hpk, hvk, hcaB, hm] at h
      exact Except.noConfusion h
  | ok txm =>
  obtain ⟨addr, r_bcm, acmV0, proof0, fee0, hca0, hh, hneg0, htx, hfcm0⟩ :=
    mint_ok_elim N e.mintEnv vk 100 txm hm
  subst htx
  cases hmt : e.merkleTree with
  | error m =>
      simp only [burn, hpk, hvk, hcaB, hm, hmt] at h
      exact Except.noConfusion h
  | ok u1 =>
  cases hmp : e.merklePath with
  | error m =>
      simp only [burn, hpk, hvk, hcaB, hm, hmt, hmp] at h
      exact Except.noConfusion h
  | ok u2 =>
  cases hsn : e.serialNumber with
  | error m =>
      simp only [burn, hpk, hvk, hcaB, hm, hmt, hmp, hsn] at h
      exact Except.noConfusion h
  | ok sn =>
  cases hsg : e.signature with
  | error m =>
      simp only [burn, hpk, hvk, hcaB, hm, hmt, hmp, hsn, hsg] at h
      exact Except.noConfusion h
  | ok u3 =>
  cases hcb2 : N.commit_bhp256 (N.to_bits_le ca) e.r_acm with
  | error m =>
      simp only [burn, acmFn, hpk, hvk, hcaB, hm, hmt, hmp, hsn, hsg, hcb2] at h
      exact Except.noConfusion h
  | ok acmV =>
  cases hcf2 : e.circuitFrom with
  | error m =>
      simp only [burn, acmFn, mintTransition, mintRecord, Record.to_record_view_key,
        Record.decrypt_symmetric, bcmFn, hpk, hvk, hcaB, hm, hmt, hmp, hsn, hsg, hcb2,
        hh, hcf2, eq_self_iff_true, ite_true] at h
      exact Except.noConfusion h
  | ok u4 =>
  cases hcp2 : e.circuitExecPanics with
  | true =>
      simp only [burn, acmFn, mintTransition, mintRecord, Record.to_record_view_key,
        Record.decrypt_symmetric, bcmFn, hpk, hvk, hcaB, hm, hmt, hmp, hsn, hsg, hcb2,
        hh, hcf2, hcp2, eq_self_iff_true, ite_true] at h
      exact Except.noConfusion h
  | false =>
  cases hse2 : e.snarkExecute with
  | error m =>
      simp only [burn, acmFn, mintTransition, mintRecord, Record.to_record_view_key,
        Record.decrypt_symmetric, bcmFn, hpk, hvk, hcaB, hm, hmt, hmp, hsn, hsg, hcb2,
        hh, hcf2, hcp2, Bool.false_eq_true, if_false, hse2, eq_self_iff_true,
        ite_true] at h
      exact Except.noConfusion h
  | ok proof =>
  simp only [burn, acmFn, mintTransition, mintRecord, Record.to_record_view_key,
    Record.decrypt_symmetric, bcmFn, hpk, hvk, hcaB, hm, hmt, hmp, hsn, hsg, hcb2,
    hh, hcf2, hcp2, Bool.false_eq_true, if_false, hse2, eq_self_iff_true,
    ite_true] at h
  refine ⟨vk, sn, r_bcm, acmV, proof, addr, acmV0, proof0, fee0, rfl, rfl, hh, hm, ?_⟩
  simp only [burnTransition]
  split at h
  · rename_i val heq
    injection h with h4
    subst h4
    split at heq
    · exact Except.noConfusion heq
    · rename_i tfcm hfcm
      split at heq
      · rename_i hcond
        injection heq with h3
        refine ⟨h3.symm, ?_⟩
        rw [hfcm, hcond]
      · exact Except.noConfusion heq
  · exact Except.noConfusion h
  · exact Except.noConfusion h

end Elim

section Claims

/-- C6: for every `Transition` value, regardless of its inputs, outputs,
proofs, address commitment, or fee, `Transition.verify()` returns `true`:
the post-hoc validity check is a stub that always reports success. -/
theorem transition_verify_stub {F S : Type} (t : Transition F S) :
    t.verify = true :=
  rfl

/-- C4: for every pair of scalar lists `r_in` and `r_out`, the
commitment-engine function `fcm(r_in, r_out)` returns the pair
`(Commit64(0, r_fcm), r_fcm)` where `r_fcm` is the sum of the elements of
`r_in` minus the sum of the elements of `r_out`. -/
theorem fcm_engine_formula {S : Type} [CommRing S] (r_in r_out : List S) :
    fcmFn r_in r_out = (commit_ped64 0 (r_in.sum - r_out.sum), r_in.sum - r_out.sum) :=
  fcmFn_eq r_in r_out

/-- C2: `Transition.fcm()` returns the sum of the input balance commitments
minus the sum of the output balance commitments, with a Pedersen commitment
to the absolute value of the fee (blinding zero) subtracted when the fee is
positive and added when the fee is negative; for the edge case `fee = 0`
the commitment-to-zero term is the group identity, so the result equals the
sum of input commitments minus the sum of output commitments with no
special-casing. -/
theorem transition_fcm_formula {F S : Type} [CommRing S] (t : Transition F S) :
    (0 < t.fee →
      t.fcm = some ((t.inputs.map Input.bcm).sum - (t.outputs.map Output.bcm).sum -
        commit_ped64 t.fee.natAbs 0))
    ∧ (t.fee < 0 → i64Min < t.fee →
      t.fcm = some ((t.inputs.map Input.bcm).sum - (t.outputs.map Output.bcm).sum +
        commit_ped64 t.fee.natAbs 0))
    ∧ (t.fee = 0 →
      t.fcm = some ((t.inputs.map Input.bcm).sum - (t.outputs.map Output.bcm).sum)) := by
  unfold Transition.fcm
  simp only [foldl_add_map, foldl_sub_map, zero_add]
  refine ⟨?_, ?_, ?_⟩
  · intro hpos
    rw [i64AbsChecked, if_neg (by simp only [i64Min]; omega : t.fee ≠ i64Min),
        if_pos hpos]
    simp
  · intro hneg hmin
    rw [i64AbsChecked, if_neg (by simp only [i64Min] at hmin ⊢; omega : t.fee ≠ i64Min),
        if_neg (by omega : ¬ 0 < t.fee)]
    simp
  · intro hzero
    rw [i64AbsChecked, if_neg (by rw [hzero]; simp only [i64Min]; omega : t.fee ≠ i64Min),
        if_neg (by omega : ¬ 0 < t.fee), hzero]
    simp [commit_ped64]

/-- A concrete transition with positive fee used to witness the fee
commitment formula. -/
def txFeePos : Transition Int Int :=
  { inputs := [{ serial_number := 1, bcm := (5, 2) }],
    outputs := [{ record := { state := { program := 0, process := 0, owner := 0,
                                         balance := 3, data := 0 },
                              rvk := 0, bcm := (3, 1) } }],
    input_proofs := [()], output_proofs := [], acm := 0, fee := 2 }

theorem transition_fcm_formula_witness :
    0 < txFeePos.fee ∧
      txFeePos.fcm = some ((txFeePos.inputs.map Input.bcm).sum -
        (txFeePos.outputs.map Output.bcm).sum - commit_ped64 txFeePos.fee.natAbs 0) :=
  ⟨by decide, (transition_fcm_formula txFeePos).1 (by decide)⟩

/-- C9: `Transition.fcm()` takes the absolute value of the signed 64-bit fee
before committing; the operation is well-defined for every in-range fee
strictly greater than `i64::MIN`, and for `fee = i64::MIN` the absolute
value overflows, so the computation aborts (panics) rather than returning a
commitment. -/
theorem fcm_abs_totality {F S : Type} [CommRing S] (t : Transition F S) :
    (i64Min < t.fee → t.fee < 2 ^ 63 → ∃ v, t.fcm = some v)
    ∧ (t.fee = i64Min → t.fcm = none) := by
  constructor
  · intro hgt _hlt
    unfold Transition.fcm
    rw [i64AbsChecked, if_neg (by simp only [i64Min] at hgt ⊢; omega : t.fee ≠ i64Min)]
    by_cases hpos : 0 < t.fee
    · rw [if_pos hpos]
      exact ⟨_, rfl⟩
    · rw [if_neg hpos]
      exact ⟨_, rfl⟩
  · intro hmin
    unfold Transition.fcm
    rw [i64AbsChecked, if_pos hmin,
        if_neg (by rw [hmin]; simp only [i64Min]; omega : ¬ 0 < t.fee)]
    rfl

/-- A concrete transition whose fee is `i64::MIN`, witnessing the abs
overflow panic. -/
def txFeeMin : Transition Int Int :=
  { inputs := [], outputs := [], input_proofs := [], output_proofs := [],
    acm := 0, fee := -(2 ^ 63) }

/-- A concrete transition with a small negative fee, witnessing totality. -/
def txFeeNeg : Transition Int Int :=
  { inputs := [], outputs := [], input_proofs := [], output_proofs := [],
    acm := 0, fee := -7 }

theorem fcm_abs_totality_witness :
    (∃ v, txFeeNeg.fcm = some v) ∧ txFeeMin.fcm = none :=
  ⟨(fcm_abs_totality txFeeNeg).1 (by decide) (by decide),
   (fcm_abs_totality txFeeMin).2 (by decide)⟩

/-- C3 counterexample: the claim says the burn flow calls the fcm engine as
`fcm(∅, [r_bcm + k_bcm])`, producing `r_fcm = -(r_bcm + k_bcm)`.  At the
concrete scalars `r_bcm = 1`, `k_bcm = 2` over `ℤ`, the actual call site
(`burnFcmCall`, embedded from `main.rs` line 351) produces `r_fcm = 3`, not
`-3`, and its commitment differs from the one `fcm(∅, [r_bcm + k_bcm])`
would give. -/
theorem burn_fcm_call_spec_counterexample :
    ¬ ((burnFcmCall (S := Int) 1 2).2 = -(1 + 2) ∧
       burnFcmCall (S := Int) 1 2 = fcmFn [] [1 + 2]) := by
  decide

/-- C3 (amended): in the burn flow, after computing the input-side balance
commitment with the fresh blinding scalar `k_bcm`, the pre-circuit fee
commitment is computed as `fcm([r_bcm + k_bcm], ∅)` — the fcm engine is
called with the single element `r_bcm + k_bcm` as the input-side
randomizers and the empty list as the output-side randomizers, giving
`r_fcm = r_bcm + k_bcm` and `fcm = Commit64(0, r_bcm + k_bcm)`. -/
theorem burn_fcm_call_input_side {S : Type} [CommRing S] (r_bcm k_bcm : S) :
    burnFcmCall r_bcm k_bcm = fcmFn [r_bcm + k_bcm] [] ∧
      (burnFcmCall r_bcm k_bcm).2 = r_bcm + k_bcm ∧
      (burnFcmCall r_bcm k_bcm).1 = commit_ped64 0 (r_bcm + k_bcm) := by
  refine ⟨rfl, ?_, ?_⟩
  · rw [burnFcmCall, fcmFn_eq]
    simp
  · rw [burnFcmCall, fcmFn_eq]
    simp

/-- C7: for every successful mint with a caller view key and amount `a`
(a 64-bit value, over a scalar field of characteristic exceeding `2^64`),
the returned `Transaction` has network identifier `0` and exactly one
transition whose inputs and input-proofs lists are empty, whose outputs
list contains exactly one output wrapping the newly encrypted record
(decrypting to balance `a`), whose output-proofs list contains exactly one
proof, and whose fee equals `-a`. -/
theorem mint_scenario {F S : Type} [CommRing S] [DecidableEq F] [DecidableEq S]
    (N : NetworkOps F S) (e : MintEnv F S) (vk : F) (a : Nat) (tx : Transaction F S)
    (hS : ((2 ^ 64 : Nat) : S) ≠ 0) (ha : a < 2 ^ 64)
    (h : mint N e vk a = Except.ok tx) :
    tx.network = 0 ∧
    ∃ t, tx.transitions = [t] ∧
      t.inputs = [] ∧
      t.input_proofs = [] ∧
      t.output_proofs.length = 1 ∧
      (∃ o, t.outputs = [o] ∧
        ∃ s, o.record.decrypt_symmetric (o.record.to_record_view_key vk) = Except.ok s ∧
          s.balance = a) ∧
      t.fee = -(a : Int) := by
  obtain ⟨addr, r_bcm, acmV, proof, fee, hca, hh, hneg, htx, hfcm⟩ :=
    mint_ok_elim N e vk a tx h
  obtain ⟨hsmall, hfee⟩ :=
    mint_amount_small N e addr acmV a r_bcm proof fee hS hneg hfcm
  subst htx
  have hmod : a % 2 ^ 64 = a := Nat.mod_eq_of_lt ha
  refine ⟨rfl, mintTransition N e addr acmV a r_bcm proof fee, rfl, rfl, rfl, rfl,
    ⟨{ record := mintRecord N e addr a r_bcm }, rfl, ?_⟩, ?_⟩
  · refine ⟨(mintRecord N e addr a r_bcm).state, ?_, ?_⟩
    · simp [Record.decrypt_symmetric, Record.to_record_view_key]
    · simp only [mintRecord]
      exact hmod
  · show fee = -(a : Int)
    rw [hfee, hmod]

/-- C1: for every successful mint or burn build over a scalar field of
characteristic exceeding `2^64`, the assembled transition satisfies value
conservation — the fee equals the sum of consumed balances minus the sum of
produced balances (`fee = -amount` for mint, `fee = 100`, the consumed
record's balance, for burn) — and the fee commitment recomputed from the
assembled `Transition` via `Transition.fcm()` equals the `fcm` value
computed from the blinding scalars during witness construction (a build in
which the two would differ fails the assert and returns no transaction). -/
theorem mint_burn_value_conservation {F S : Type} [CommRing S] [DecidableEq F]
    [DecidableEq S] (N : NetworkOps F S) (hS : ((2 ^ 64 : Nat) : S) ≠ 0) :
    (∀ (e : MintEnv F S) (vk : F) (a : Nat) (tx : Transaction F S), a < 2 ^ 64 →
      mint N e vk a = Except.ok tx →
      ∃ t, tx.transitions = [t] ∧
        t.inputs = [] ∧
        t.fee = 0 - (t.outputs.map fun o => (o.record.state.balance : Int)).sum ∧
        t.fee = -(a : Int) ∧
        (∀ r, N.hash_to_scalar_psd2 [N.bcm_domain, e.freshRvk] = Except.ok r →
          t.fcm = some ((fcmFn (S := S) [] [r]).1)))
    ∧ (∀ (e : BurnEnv F S) (tx : Transaction F S),
      burn N e = Except.ok tx →
      ∃ t, tx.transitions = [t] ∧
        t.outputs = [] ∧
        (∀ vk txm, e.viewKey = Except.ok vk →
          mint N e.mintEnv vk 100 = Except.ok txm →
          ∀ t0 ∈ txm.transitions, ∀ o ∈ t0.outputs,
            t.fee = ((o.record.state.balance : Int) -
              (t.outputs.map fun o2 => (o2.record.state.balance : Int)).sum)) ∧
        t.fee = 100 ∧
        (∀ r, N.hash_to_scalar_psd2 [N.bcm_domain, e.mintEnv.freshRvk] = Except.ok r →
          t.fcm = some ((burnFcmCall r e.k_bcm).1))) := by
  constructor
  · intro e vk a tx ha h
    obtain ⟨addr, r_bcm, acmV, proof, fee, hca, hh, hneg, htx, hfcm⟩ :=
      mint_ok_elim N e vk a tx h
    obtain ⟨hsmall, hfee⟩ :=
      mint_amount_small N e addr acmV a r_bcm proof fee hS hneg hfcm
    subst htx
    have hmod : a % 2 ^ 64 = a := Nat.mod_eq_of_lt ha
    refine ⟨mintTransition N e addr acmV a r_bcm proof fee, rfl, rfl, ?_, ?_, ?_⟩
    · show fee = 0 - ((a % 2 ^ 64 : Nat) : Int)
      rw [hfee]
      ring
    · show fee = -(a : Int)
      rw [hfee, hmod]
    · intro r hr
      rw [hh] at hr
      injection hr with hr2
      subst hr2
      exact hfcm
  · intro e tx h
    obtain ⟨vk, sn, r_bcm, acmV, proof, addr, acmV0, proof0, fee0, hvk, hsn, hh, hm,
      htx, hfcm⟩ := burn_ok_elim N e tx h
    subst htx
    have hfee : u64AsI64 (100 % 2 ^ 64) = 100 := by decide
    refine ⟨burnTransition e sn acmV r_bcm proof, rfl, rfl, ?_, hfee, ?_⟩
    · intro vk2 txm hvk2 hm2 t0 ht0 o ho
      rw [hvk] at hvk2
      injection hvk2 with hvk3
      subst hvk3
      rw [hm] at hm2
      injection hm2 with hm3
      subst hm3
      simp only [mintTransition, List.mem_singleton] at ht0
      subst ht0
      simp only [List.mem_singleton] at ho
      subst ho
      simp only [mintRecord, burnTransition, List.map_nil, List.sum_nil, sub_zero]
      exact hfee.symm
    · intro r hr
      rw [hh] at hr
      injection hr with hr2
      subst hr2
      exact hfcm

/-- C8: for every successful burn (which internally mints a 100-unit record
and then consumes it), the returned `Transaction` has exactly one
transition with exactly one input carrying the consumed record's serial
number and randomized balance commitment (the record's embedded commitment
rerandomized by `Commit64(0, k_bcm)`), an empty outputs list, exactly one
input proof, and fee equal to `100`, the balance of the consumed record. -/
theorem burn_scenario {F S : Type} [CommRing S] [DecidableEq F] [DecidableEq S]
    (N : NetworkOps F S) (e : BurnEnv F S) (tx : Transaction F S)
    (h : burn N e = Except.ok tx) :
    tx.network = 0 ∧
    ∃ t, tx.transitions = [t] ∧
      t.outputs = [] ∧
      t.input_proofs.length = 1 ∧
      t.fee = 100 ∧
      ∃ i, t.inputs = [i] ∧
        (∀ sn, e.serialNumber = Except.ok sn → i.serial_number = sn) ∧
        (∀ vk txm, e.viewKey = Except.ok vk →
          mint N e.mintEnv vk 100 = Except.ok txm →
          ∀ t0 ∈ txm.transitions, ∀ o ∈ t0.outputs,
            i.bcm = o.record.bcm + commit_ped64 0 e.k_bcm ∧
            o.record.state.balance = 100) := by
  obtain ⟨vk, sn, r_bcm, acmV, proof, addr, acmV0, proof0, fee0, hvk, hsn, hh, hm,
    htx, hfcm⟩ := burn_ok_elim N e tx h
  subst htx
  have hfee100 : u64AsI64 (100 % 2 ^ 64) = 100 := by decide
  have hbal100 : (100 % 2 ^ 64 : Nat) = 100 := by decide
  refine ⟨rfl, burnTransition e sn acmV r_bcm proof, rfl, rfl, rfl, hfee100,
    { serial_number := sn,
      bcm := commit_ped64 (100 % 2 ^ 64) r_bcm + commit_ped64 0 e.k_bcm },
    rfl, ?_, ?_⟩
  · intro sn2 hsn2
    rw [hsn] at hsn2
    exact Except.ok.inj hsn2
  · intro vk2 txm hvk2 hm2 t0 ht0 o ho
    rw [hvk] at hvk2
    injection hvk2 with hvk3
    subst hvk3
    rw [hm] at hm2
    injection hm2 with hm3
    subst hm3
    simp only [mintTransition, List.mem_singleton] at ht0
    subst ht0
    simp only [List.mem_singleton] at ho
    subst ho
    exact ⟨rfl, hbal100⟩

end Claims

section PanicHelpers

variable {F S : Type} [CommRing S] [DecidableEq F] [DecidableEq S]

theorem mint_no_uncaught (N : NetworkOps F S) (e : MintEnv F S) (vk : F) (a : Nat) :
    mint N e vk a ≠ Except.error BuildError.uncaught := by
  intro h
  unfold mint at h
  repeat' (first | simp at h | split at h)

theorem burn_no_uncaught (N : NetworkOps F S) (e : BurnEnv F S) :
    burn N e ≠ Except.error BuildError.uncaught := by
  intro h
  unfold burn at h
  repeat' (first | simp at h | split at h)
  · rename_i xm err hmErr
    subst h
    exact mint_no_uncaught N e.mintEnv _ 100 hmErr
  · rename_i xm txm hmOk xl htr
    obtain ⟨addr, r_bcm, acmV, proof, fee, hca, hh, hneg, htx, hfcm⟩ :=
      mint_ok_elim _ _ _ _ _ hmOk
    subst htx
    simp at htr
  · rename_i xm txm hmOk xl t0 tail htr xo hout
    obtain ⟨addr, r_bcm, acmV, proof, fee, hca, hh, hneg, htx, hfcm⟩ :=
      mint_ok_elim _ _ _ _ _ hmOk
    subst htx
    simp only [Transaction.mk.injEq, List.cons.injEq] at htr
    obtain ⟨ht0, -⟩ := htr
    rw [← ht0] at hout
    simp [mintTransition] at hout

theorem mint_panic_threadFailed (N : NetworkOps F S) (e : MintEnv F S) (vk addr : F)
    (a : Nat) (r_bcm : S) (acmV dg : F)
    (hca : e.callerAddress = Except.ok addr)
    (hrand : e.randomizer = Except.ok ())
    (heo : e.encryptOk = true)
    (hh : N.hash_to_scalar_psd2 [N.bcm_domain, e.freshRvk] = Except.ok r_bcm)
    (hcb : N.commit_bhp256 (N.to_bits_le addr) e.r_acm = Except.ok acmV)
    (hd : N.hash_bhp1024 [] = Except.ok dg)
    (hcf : e.circuitFrom = Except.ok ())
    (hcp : e.circuitExecPanics = true) :
    mint N e vk a = Except.error BuildError.threadFailed := by
  simp only [mint, encrypt, acmFn, Record.to_record_view_key, hca, hrand, heo, if_true,
    hh, hcb, hd, hcf, hcp, ite_true]

theorem mint_circuit_error_typed (N : NetworkOps F S) (e : MintEnv F S) (vk addr : F)
    (a : Nat) (r_bcm : S) (acmV dg : F) (m : String)
    (hca : e.callerAddress = Except.ok addr)
    (hrand : e.randomizer = Except.ok ())
    (heo : e.encryptOk = true)
    (hh : N.hash_to_scalar_psd2 [N.bcm_domain, e.freshRvk] = Except.ok r_bcm)
    (hcb : N.commit_bhp256 (N.to_bits_le addr) e.r_acm = Except.ok acmV)
    (hd : N.hash_bhp1024 [] = Except.ok dg)
    (hcf : e.circuitFrom = Except.error m) :
    mint N e vk a = Except.error (BuildError.typed m) := by
  simp only [mint, encrypt, acmFn, Record.to_record_view_key, hca, hrand, heo, if_true,
    hh, hcb, hd, hcf]

theorem burn_panic_threadFailed (N : NetworkOps F S) (e : BurnEnv F S) (vk ca : F)
    (txm : Transaction F S) (acmV : F)
    (hpk : e.privateKey = Except.ok ())
    (hvk : e.viewKey = Except.ok vk)
    (hcaB : e.callerAddress = Except.ok ca)
    (hm : mint N e.mintEnv vk 100 = Except.ok txm)
    (hmt : e.merkleTree = Except.ok ())
    (hmp : e.merklePath = Except.ok ())
    (hsn : ∃ sn, e.serialNumber = Except.ok sn)
    (hsg : e.signature = Except.ok ())
    (hcb2 : N.commit_bhp256 (N.to_bits_le ca) e.r_acm = Except.ok acmV)
    (hcf2 : e.circuitFrom = Except.ok ())
    (hcp2 : e.circuitExecPanics = true) :
    burn N e = Except.error BuildError.threadFailed := by
  obtain ⟨sn, hsn⟩ := hsn
  obtain ⟨addr, r_bcm, acmV0, proof0, fee0, hca0, hh, hneg0, htx, hfcm0⟩ :=
    mint_ok_elim N e.mintEnv vk 100 txm hm
  subst htx
  simp only [burn, acmFn, mintTransition, mintRecord, Record.to_record_view_key,
    Record.decrypt_symmetric, bcmFn, hpk, hvk, hcaB, hm, hmt, hmp, hsn, hsg, hcb2,
    hh, hcf2, hcp2, eq_self_iff_true, ite_true]

end PanicHelpers

section Claims2

/-- C5: neither mint nor burn ever propagates a panic arising inside the
circuit build-and-execute step to its caller: each function returns either
a fully assembled `Transaction` or an error (never the `uncaught` marker of
an unwinding panic), a panic inside the isolation boundary is converted
into the thread-failure error, and a typed circuit-construction error is
returned as a typed error value distinguishable from thread failure. -/
theorem builders_isolate_panics {F S : Type} [CommRing S] [DecidableEq F]
    [DecidableEq S] (N : NetworkOps F S) :
    (∀ (e : MintEnv F S) (vk : F) (a : Nat),
      (∃ tx, mint N e vk a = Except.ok tx) ∨ (∃ err, mint N e vk a = Except.error err))
    ∧ (∀ (e : MintEnv F S) (vk : F) (a : Nat),
      mint N e vk a ≠ Except.error BuildError.uncaught)
    ∧ (∀ (e : BurnEnv F S), burn N e ≠ Except.error BuildError.uncaught)
    ∧ (∀ (e : MintEnv F S) (vk addr : F) (a : Nat) (r_bcm : S) (acmV dg : F),
      e.callerAddress = Except.ok addr → e.randomizer = Except.ok () →
      e.encryptOk = true →
      N.hash_to_scalar_psd2 [N.bcm_domain, e.freshRvk] = Except.ok r_bcm →
      N.commit_bhp256 (N.to_bits_le addr) e.r_acm = Except.ok acmV →
      N.hash_bhp1024 [] = Except.ok dg → e.circuitFrom = Except.ok () →
      e.circuitExecPanics = true →
      mint N e vk a = Except.error BuildError.threadFailed)
    ∧ (∀ (e : BurnEnv F S) (vk ca : F) (txm : Transaction F S) (acmV : F),
      e.privateKey = Except.ok () → e.viewKey = Except.ok vk →
      e.callerAddress = Except.ok ca →
      mint N e.mintEnv vk 100 = Except.ok txm →
      e.merkleTree = Except.ok () → e.merklePath = Except.ok () →
      (∃ sn, e.serialNumber = Except.ok sn) → e.signature = Except.ok () →
      N.commit_bhp256 (N.to_bits_le ca) e.r_acm = Except.ok acmV →
      e.circuitFrom = Except.ok () → e.circuitExecPanics = true →
      burn N e = Except.error BuildError.threadFailed)
    ∧ (∀ (e : MintEnv F S) (vk addr : F) (a : Nat) (r_bcm : S) (acmV dg : F)
        (m : String),
      e.callerAddress = Except.ok addr → e.randomizer = Except.ok () →
      e.encryptOk = true →
      N.hash_to_scalar_psd2 [N.bcm_domain, e.freshRvk] = Except.ok r_bcm →
      N.commit_bhp256 (N.to_bits_le addr) e.r_acm = Except.ok acmV →
      N.hash_bhp1024 [] = Except.ok dg → e.circuitFrom = Except.error m →
      mint N e vk a = Except.error (BuildError.typed m) ∧
        BuildError.typed m ≠ BuildError.threadFailed) := by
  refine ⟨?_, ?_, ?_, ?_, ?_, ?_⟩
  · intro e vk a
    cases h : mint N e vk a with
    | ok tx => exact Or.inl ⟨tx, rfl⟩
    | error err => exact Or.inr ⟨err, rfl⟩
  · intro e vk a
    exact mint_no_uncaught N e vk a
  · intro e
    exact burn_no_uncaught N e
  · intro e vk addr a r_bcm acmV dg h1 h2 h3 h4 h5 h6 h7 h8
    exact mint_panic_threadFailed N e vk addr a r_bcm acmV dg h1 h2 h3 h4 h5 h6 h7 h8
  · intro e vk ca txm acmV h1 h2 h3 h4 h5 h6 h7 h8 h9 h10 h11
    exact burn_panic_threadFailed N e vk ca txm acmV h1 h2 h3 h4 h5 h6 h7 h8 h9 h10 h11
  · intro e vk addr a r_bcm acmV dg m h1 h2 h3 h4 h5 h6 h7
    exact ⟨mint_circuit_error_typed N e vk addr a r_bcm acmV dg m h1 h2 h3 h4 h5 h6 h7,
      by simp⟩

end Claims2

section Deploy

/-- A JSON value, as manipulated by `serde_json`: an object (ordered list of
string-keyed fields), an opaque serialized leaf, or `null` (returned by
`Value` indexing when a key is missing). -/
inductive Json (L : Type) where
  | leaf : L → Json L
  | obj : List (String × Json L) → Json L
  | null : Json L

/-- `serde_json` value indexing `value[key]`: looks the key up in an object
(first match) and returns `null` for a missing key or a non-object. -/
def jsonIndex {L : Type} (j : Json L) (key : String) : Json L :=
  match j with
  | Json.obj fields => jsonLookup key fields
  | _ => Json.null
where
  jsonLookup (key : String) : List (String × Json L) → Json L
    | [] => Json.null
    | (k, v) :: rest => if key = k then v else jsonLookup key rest

/-- A serde codec for an external component type: how it serializes into a
JSON value and how it deserializes back (fallibly). -/
structure SerdeCodec (α L : Type) where
  ser : α → Json L
  de : Json L → Except String α

/-- `DeployRequest` from `vm/package/deploy.rs`: a deployment, the caller
address and the program ID (component types external to this file). -/
structure DeployRequest (D A P : Type) where
  deployment : D
  address : A
  program_id : P
deriving DecidableEq

/-- The `Serialize` impl for `DeployRequest`: a three-field struct written
in the order `deployment`, `address`, `program_id`. -/
def serializeDeployRequest {D A P L : Type} (cD : SerdeCodec D L) (cA : SerdeCodec A L)
    (cP : SerdeCodec P L) (r : DeployRequest D A P) : Json L :=
  Json.obj [("deployment", cD.ser r.deployment), ("address", cA.ser r.address),
            ("program_id", cP.ser r.program_id)]

/-- The `Deserialize` impl for `DeployRequest`: parses a JSON value, indexes
the `deployment`, `address` and `program_id` keys, deserializes each
component, and rebuilds the request with `Self::new`. -/
def deserializeDeployRequest {D A P L : Type} (cD : SerdeCodec D L) (cA : SerdeCodec A L)
    (cP : SerdeCodec P L) (j : Json L) : Except String (DeployRequest D A P) :=
  match cD.de (jsonIndex j "deployment") with
  | Except.error m => Except.error m
  | Except.ok d =>
  match cA.de (jsonIndex j "address") with
  | Except.error m => Except.error m
  | Except.ok a =>
  match cP.de (jsonIndex j "program_id") with
  | Except.error m => Except.error m
  | Except.ok p => Except.ok { deployment := d, address := a, program_id := p }

/-- C10: serializing a `DeployRequest` to JSON and deserializing the result
round-trips: whenever the three component codecs round-trip on the request's
fields, the deserialized value's `deployment`, `address` and `program_id`
fields equal those of the original request. -/
theorem deploy_request_roundtrip {D A P L : Type} (cD : SerdeCodec D L)
    (cA : SerdeCodec A L) (cP : SerdeCodec P L) (r : DeployRequest D A P)
    (hD : cD.de (cD.ser r.deployment) = Except.ok r.deployment)
    (hA : cA.de (cA.ser r.address) = Except.ok r.address)
    (hP : cP.de (cP.ser r.program_id) = Except.ok r.program_id) :
    ∃ r2, deserializeDeployRequest cD cA cP (serializeDeployRequest cD cA cP r) =
        Except.ok r2 ∧
      r2.deployment = r.deployment ∧ r2.address = r.address ∧
      r2.program_id = r.program_id := by
  have hidx : ∀ key : String,
      jsonIndex (serializeDeployRequest cD cA cP r) key =
        jsonIndex.jsonLookup key
          [("deployment", cD.ser r.deployment), ("address", cA.ser r.address),
           ("program_id", cP.ser r.program_id)] := by
    intro key
    rfl
  refine ⟨{ deployment := r.deployment, address := r.address,
            program_id := r.program_id }, ?_, rfl, rfl, rfl⟩
  unfold deserializeDeployRequest
  rw [hidx "deployment", hidx "address", hidx "program_id"]
  simp only [jsonIndex.jsonLookup]
  simp [hD, hA, hP]

end Deploy

section Witnesses

/-- A concrete instantiation of the network primitives over `F = S = ℤ`. -/
def NOpsInt : NetworkOps Int Int :=
  { hash_to_scalar_psd2 := fun l => Except.ok (l.foldl (fun acc x => acc + x) 0),
    commit_bhp256 := fun _ r => Except.ok (r + 1),
    hash_bhp1024 := fun _ => Except.ok 9,
    bcm_domain := 5,
    to_bits_le := fun _ => [],
    fieldZero := 0 }

/-- A concrete mint environment in which every external step succeeds. -/
def mintEnvW : MintEnv Int Int :=
  { callerAddress := Except.ok 3, randomizer := Except.ok (), encryptOk := true,
    freshRvk := 4, r_acm := 6, circuitFrom := Except.ok (),
    circuitExecPanics := false, snarkExecute := Except.ok () }

/-- The coinbase record produced by `mint NOpsInt mintEnvW 7 100`. -/
def recW : Record Int Int :=
  { state := { program := 0, process := 0, owner := 3, balance := 100, data := 0 },
    rvk := 4, bcm := (100, 9) }

/-- The transition assembled by `mint NOpsInt mintEnvW 7 100`. -/
def mintTW : Transition Int Int :=
  { inputs := [], outputs := [{ record := recW }], input_proofs := [],
    output_proofs := [()], acm := 7, fee := -100 }

/-- The transaction produced by `mint NOpsInt mintEnvW 7 100`. -/
def txW : Transaction Int Int :=
  { network := 0, transitions := [mintTW] }

/-- A concrete burn environment in which every external step succeeds. -/
def burnEnvW : BurnEnv Int Int :=
  { privateKey := Except.ok (), viewKey := Except.ok 7, callerAddress := Except.ok 3,
    mintEnv := mintEnvW, merkleTree := Except.ok (), merklePath := Except.ok (),
    merkleRoot := 11, serialNumber := Except.ok 13, signature := Except.ok (),
    r_acm := 2, k_bcm := 4, circuitFrom := Except.ok (), circuitExecPanics := false,
    snarkExecute := Except.ok () }

/-- The transition assembled by `burn NOpsInt burnEnvW`. -/
def burnTW : Transition Int Int :=
  { inputs := [{ serial_number := 13, bcm := (100, 13) }], outputs := [],
    input_proofs := [()], output_proofs := [], acm := 3, fee := 100 }

/-- The transaction produced by `burn NOpsInt burnEnvW`. -/
def txBW : Transaction Int Int :=
  { network := 0, transitions := [burnTW] }

/-- A mint environment whose circuit execution panics. -/
def mintEnvPanicW : MintEnv Int Int :=
  { callerAddress := Except.ok 3, randomizer := Except.ok (), encryptOk := true,
    freshRvk := 4, r_acm := 6, circuitFrom := Except.ok (),
    circuitExecPanics := true, snarkExecute := Except.ok () }

/-- A burn environment whose circuit execution panics (its internal mint
succeeds). -/
def burnEnvPanicW : BurnEnv Int Int :=
  { privateKey := Except.ok (), viewKey := Except.ok 7, callerAddress := Except.ok 3,
    mintEnv := mintEnvW, merkleTree := Except.ok (), merklePath := Except.ok (),
    merkleRoot := 11, serialNumber := Except.ok 13, signature := Except.ok (),
    r_acm := 2, k_bcm := 4, circuitFrom := Except.ok (), circuitExecPanics := true,
    snarkExecute := Except.ok () }

theorem mint_scenario_witness :
    (100 : Nat) < 2 ^ 64 ∧ txW.network = 0 ∧
      ∃ t, txW.transitions = [t] ∧ t.fee = -((100 : Nat) : Int) := by
  obtain ⟨hnet, t, ht, -, -, -, -, hfee⟩ :=
    mint_scenario NOpsInt mintEnvW 7 100 txW (by decide) (by decide) (by rfl)
  exact ⟨by decide, hnet, t, ht, hfee⟩

theorem burn_scenario_witness :
    txBW.network = 0 ∧ ∃ t, txBW.transitions = [t] ∧ t.fee = 100 := by
  obtain ⟨hnet, t, ht, -, -, hfee, -⟩ := burn_scenario NOpsInt burnEnvW txBW (by rfl)
  exact ⟨hnet, t, ht, hfee⟩

theorem mint_burn_value_conservation_witness :
    (∃ t, txW.transitions = [t] ∧ t.fee = -((100 : Nat) : Int)) ∧
    (∃ t, txBW.transitions = [t] ∧ t.fee = 100) := by
  obtain ⟨t, ht, -, -, hfee, -⟩ :=
    (mint_burn_value_conservation NOpsInt (by decide)).1 mintEnvW 7 100 txW
      (by decide) (by rfl)
  obtain ⟨t2, ht2, -, -, hfee2, -⟩ :=
    (mint_burn_value_conservation NOpsInt (by decide)).2 burnEnvW txBW (by rfl)
  exact ⟨⟨t, ht, hfee⟩, ⟨t2, ht2, hfee2⟩⟩

theorem builders_isolate_panics_witness :
    mint NOpsInt mintEnvPanicW 7 100 = Except.error BuildError.threadFailed ∧
    burn NOpsInt burnEnvPanicW = Except.error BuildError.threadFailed ∧
    mint NOpsInt mintEnvW 7 5 ≠ Except.error BuildError.uncaught :=
  ⟨(builders_isolate_panics NOpsInt).2.2.2.1 mintEnvPanicW 7 3 100 9 7 9
      (by rfl) (by rfl) (by rfl) (by rfl) (by rfl) (by rfl) (by rfl) (by rfl),
   (builders_isolate_panics NOpsInt).2.2.2.2.1 burnEnvPanicW 7 3 txW 3
      (by rfl) (by rfl) (by rfl) (by rfl) (by rfl) (by rfl) ⟨13, by rfl⟩ (by rfl)
      (by rfl) (by rfl) (by rfl),
   (builders_isolate_panics NOpsInt).2.1 mintEnvW 7 5⟩

/-- A trivial serde codec for `ℤ` components: serialize as a leaf,
deserialize by reading the leaf back. -/
def cIntCodec : SerdeCodec Int Int :=
  { ser := Json.leaf,
    de := fun j => match j with
      | Json.leaf n => Except.ok n
      | _ => Except.error "expected leaf" }

/-- A concrete deploy request over integer component stand-ins. -/
def reqW : DeployRequest Int Int Int :=
  { deployment := 1, address := 2, program_id := 3 }

theorem deploy_request_roundtrip_witness :
    ∃ r2, deserializeDeployRequest cIntCodec cIntCodec cIntCodec
        (serializeDeployRequest cIntCodec cIntCodec cIntCodec reqW) = Except.ok r2 ∧
      r2.deployment = reqW.deployment ∧ r2.address = reqW.address ∧
      r2.program_id = reqW.program_id :=
  deploy_request_roundtrip cIntCodec cIntCodec cIntCodec reqW rfl rfl rfl

end Witnesses

end SnarkVM
